import Mathlib

/-!
Verification development for the jobs-kenya-api repository.

The Python sources (api/helpers.py, api/jobs.py, api/status.py,
api/scrape.py, scraper.py) are modelled as pure Lean functions:
Python strings are Lean `String`s (worked on through their `data`
character lists), the relational store is an explicit record of rows,
and the network boundary is represented by already-parsed upstream
items handed to the source adapters.
-/

namespace JobsKenya

/-! ## Character-list utilities (Python string primitives) -/

/-- Does the first list occur as a leading block of the second? -/
def startsWithL : List Char → List Char → Bool
  | [], _ => true
  | _ :: _, [] => false
  | a :: as, b :: bs => a == b && startsWithL as bs

/-- Python's `w in t` substring containment test on character lists. -/
def hasSub (w : List Char) : List Char → Bool
  | [] => startsWithL w []
  | c :: cs => startsWithL w (c :: cs) || hasSub w cs

/-- Python `str.lower()` (ASCII view, as all classifier keywords are ASCII). -/
def lowerL (cs : List Char) : List Char := cs.map Char.toLower

/-- Python `str.strip()`: drop whitespace from both ends. -/
def trimL (cs : List Char) : List Char :=
  ((cs.dropWhile Char.isWhitespace).reverse.dropWhile Char.isWhitespace).reverse

/-- Python `str.split()` with no separator: whitespace-delimited words,
empty pieces discarded.  `acc` holds the current word reversed. -/
def wordsAux (acc : List Char) : List Char → List (List Char)
  | [] => if acc.isEmpty then [] else [acc.reverse]
  | c :: cs =>
    if c.isWhitespace then
      if acc.isEmpty then wordsAux [] cs else acc.reverse :: wordsAux [] cs
    else wordsAux (c :: acc) cs

def wordsL (cs : List Char) : List (List Char) := wordsAux [] cs

/-- Python `' '.join(ws)`. -/
def joinWords : List (List Char) → List Char
  | [] => []
  | [w] => w
  | w :: ws => w ++ ' ' :: joinWords ws

/-- helpers.clean / scraper.clean: `' '.join((t or '').strip().split())`. -/
def cleanL (cs : List Char) : List Char := joinWords (wordsL cs)

def clean (s : String) : String := ⟨cleanL s.data⟩

/-- Tag removal of `re.sub(r'<[^>]+>', ' ', t)`, driven by a fuel counter
that starts at the input length (each step consumes at least one input
character, so the fuel never runs out on the initial call). A `<` opens a
tag only when at least one non-`>` character stands before a later `>`. -/
def stripTagsF : Nat → List Char → List Char
  | 0, cs => cs
  | _ + 1, [] => []
  | fuel + 1, c :: cs =>
    if c = '<' ∧ (cs.takeWhile (· != '>')).isEmpty = false
        ∧ (cs.dropWhile (· != '>')).isEmpty = false then
      ' ' :: stripTagsF fuel ((cs.dropWhile (· != '>')).tail)
    else c :: stripTagsF fuel cs

/-- helpers.strip_html / scraper.strip_html: tag removal then `strip()`. -/
def strip_htmlL (cs : List Char) : List Char := trimL (stripTagsF cs.length cs)

def strip_html (s : String) : String := ⟨strip_htmlL s.data⟩

/-! ## extract_email: the regex scan with the denylist filter -/

/-- Local-part characters `[a-zA-Z0-9._%+-]`. -/
def isLocalChar (c : Char) : Bool :=
  c.isAlphanum || c == '.' || c == '_' || c == '%' || c == '+' || c == '-'

/-- Domain characters `[a-zA-Z0-9.-]`. -/
def isDomChar (c : Char) : Bool := c.isAlphanum || c == '.' || c == '-'

/-- Maximal run of characters satisfying `p`, with the remainder. -/
def takeRun (p : Char → Bool) : List Char → List Char × List Char
  | [] => ([], [])
  | c :: cs =>
    if p c then
      let r := takeRun p cs
      (c :: r.1, r.2)
    else ([], c :: cs)

/-- Backtracking tail of `[a-zA-Z0-9.-]+\.[a-zA-Z]{2,}` against the maximal
domain run `d`: the greedy first group retreats from length `k` downward
until a literal dot followed by at least two letters completes the match.
Returns the matched part of `d` and the leftover. -/
def domTail (d : List Char) : Nat → Option (List Char × List Char)
  | 0 => none
  | k + 1 =>
    match d.drop (k + 1) with
    | '.' :: r =>
      let t := takeRun Char.isAlpha r
      if 2 ≤ t.1.length then some (d.take (k + 1) ++ '.' :: t.1, t.2)
      else domTail d k
    | _ => domTail d k

/-- Try to match the email regex at the start of `cs`; on success return
the matched token and the remaining input. -/
def matchEmailAt (cs : List Char) : Option (List Char × List Char) :=
  let loc := takeRun isLocalChar cs
  if loc.1.isEmpty then none
  else
    match loc.2 with
    | '@' :: r2 =>
      let dom := takeRun isDomChar r2
      match domTail dom.1 dom.1.length with
      | some (m, leftover) => some (loc.1 ++ '@' :: m, leftover ++ dom.2)
      | none => none
    | _ => none

/-- `re.findall` scan: left to right, non-overlapping.  Fuel starts at the
input length; every step strictly shortens the input, so it suffices. -/
def findEmailsF : Nat → List Char → List (List Char)
  | 0, _ => []
  | _ + 1, [] => []
  | fuel + 1, c :: cs =>
    match matchEmailAt (c :: cs) with
    | some (m, rest) => m :: findEmailsF fuel rest
    | none => findEmailsF fuel cs

def badEmailSubs : List String :=
  ["noreply", "no-reply", "donotreply", "example", "sentry", "test@"]

/-- helpers.extract_email / scraper.extract_email: first email-shaped token
whose lowercase form contains no denylisted substring, else `''`. -/
def extract_email (text : String) : String :=
  let found := findEmailsF text.data.length text.data
  match found.find? (fun e => !(badEmailSubs.any (fun b => hasSub b.data (lowerL e)))) with
  | some e => ⟨e⟩
  | none => ""

/-! ## Classifiers -/

def counties : List String :=
  ["Nairobi", "Mombasa", "Kisumu", "Nakuru", "Eldoret", "Kiambu",
   "Machakos", "Nyeri", "Meru", "Kakamega", "Kisii", "Kilifi",
   "Embu", "Garissa", "Bungoma", "Kajiado", "Kericho", "Turkana",
   "Homa Bay", "Nyamira", "Narok", "Vihiga", "Thika", "Lamu", "Siaya"]

/-- helpers.extract_county / scraper.extract_county: first listed county whose
lowercase name occurs in the text, else the Remote sentinel for
remote/online texts, else the Nairobi default. -/
def extract_county (text : String) : String :=
  let t := lowerL text.data
  match counties.find? (fun c => hasSub (lowerL c.data) t) with
  | some c => c
  | none =>
    if hasSub "remote".data t || hasSub "online".data t then "Remote" else "Nairobi"

/-- `any(w in t for w in ws)` with `t` already lowercased. -/
def kwHit (ws : List String) (t : List Char) : Bool := ws.any (fun w => hasSub w.data t)

/-- helpers.detect_type / scraper.detect_type (the two copies are identical). -/
def detect_type (text : String) : String :=
  let t := lowerL text.data
  if kwHit ["intern", "attachment", "graduate trainee"] t then "Internship"
  else if kwHit ["part-time", "part time", "casual"] t then "Part-Time"
  else if kwHit ["government", "county", "ministry", "psc"] t then "Government"
  else if kwHit ["ngo", "unicef", "undp", "oxfam", "non-profit"] t then "NGO"
  else if kwHit ["remote", "work from home", "wfh"] t then "Remote"
  else if kwHit ["contract", "consultant", "temporary"] t then "Contract"
  else "Full-Time"

/-- helpers.detect_sector / scraper.detect_sector. -/
def detect_sector (text : String) : String :=
  let t := lowerL text.data
  if kwHit ["software", "developer", "ict", "data", "cyber", "tech"] t then "ICT & Technology"
  else if kwHit ["nurse", "doctor", "medical", "health", "clinical"] t then "Health & Medicine"
  else if kwHit ["finance", "account", "audit", "tax", "banking"] t then "Finance & Banking"
  else if kwHit ["engineer", "civil", "mechanical", "electrical"] t then "Engineering"
  else if kwHit ["teach", "tutor", "lecturer", "school", "education"] t then "Education"
  else if kwHit ["farm", "agri", "crop", "livestock", "food"] t then "Agriculture"
  else if kwHit ["market", "sales", "brand", "advertis"] t then "Marketing & Sales"
  else if kwHit ["ngo", "humanitarian", "relief", "programme"] t then "NGO / Non-Profit"
  else if kwHit ["legal", "lawyer", "advocate", "compliance"] t then "Legal"
  else if kwHit ["driver", "transport", "logistics", "supply"] t then "Transport & Logistics"
  else "General"

/-! ## The posting record and deduplication -/

/-- One row of the `scraped_jobs` relation / one posting dict.  The DB column
`type` is called `jtype` here (`type` is reserved in Lean).  The `''`
defaults mirror the `j.get(key, '')` accesses. -/
structure Job where
  id : String := ""
  title : String := ""
  company : String := ""
  location : String := ""
  county : String := ""
  jtype : String := ""
  sector : String := ""
  salary : String := ""
  deadline : String := ""
  link : String := ""
  apply_email : String := ""
  description : String := ""
  source : String := ""
  scraped_at : String := ""
deriving DecidableEq

/-- Dedup key `f"{title.lower()[:40]}|{company.lower()[:25]}"`. -/
def dedupKey (j : Job) : List Char :=
  (lowerL j.title.data).take 40 ++ '|' :: (lowerL j.company.data).take 25

/-- The `seen` set of helpers.deduplicate, as a list with membership tests. -/
def dedupAux (seen : List (List Char)) : List Job → List Job
  | [] => []
  | j :: js =>
    if dedupKey j ∈ seen then dedupAux seen js
    else j :: dedupAux (dedupKey j :: seen) js

/-- helpers.deduplicate / scraper.deduplicate. -/
def deduplicate (jobs : List Job) : List Job := dedupAux [] jobs

/-! ## The relational store -/

/-- The Neon Postgres state: the `scraped_jobs` relation (primary key `id`)
and the `scraper_meta` key/value relation (primary key `key`). -/
structure DB where
  scraped_jobs : List Job := []
  scraper_meta : List (String × String) := []
deriving DecidableEq

/-- `SELECT value FROM scraper_meta WHERE key=k`. -/
def metaGet (m : List (String × String)) (k : String) : Option String :=
  (m.find? (fun p => p.1 == k)).map Prod.snd

/-- `INSERT INTO scraper_meta ... ON CONFLICT (key) DO UPDATE SET value=...`. -/
def metaUpsert (m : List (String × String)) (k v : String) : List (String × String) :=
  if m.any (fun p => p.1 == k) then m.map (fun p => if p.1 == k then (k, v) else p)
  else m ++ [(k, v)]

/-- The row a job is written as: the insert truncates the description with
`j.get('description','')[:2000]`; all other columns are passed verbatim. -/
def toRow (j : Job) : Job := { j with description := ⟨j.description.data.take 2000⟩ }

/-- `INSERT INTO scraped_jobs ... ON CONFLICT (id) DO UPDATE SET ...` where
`upd old new` gives the columns the conflict branch overwrites. -/
def upsertRow (upd : Job → Job → Job) (t : List Job) (r : Job) : List Job :=
  if t.any (fun x => x.id == r.id) then
    t.map (fun x => if x.id == r.id then upd x r else x)
  else t ++ [r]

/-- Conflict update of api/helpers.py save_jobs: title, company, scraped_at. -/
def updApi (old new : Job) : Job :=
  { old with title := new.title, company := new.company, scraped_at := new.scraped_at }

/-- Conflict update of scraper.py save_jobs: title, scraped_at. -/
def updCli (old new : Job) : Job :=
  { old with title := new.title, scraped_at := new.scraped_at }

/-- `DELETE FROM scraped_jobs` followed by the insert loop. -/
def replaceRows (upd : Job → Job → Job) (jobs : List Job) : List Job :=
  jobs.foldl (fun t j => upsertRow upd t (toRow j)) []

/-- The committed effect of a successful save_jobs run (either file): replace
all rows, then upsert the `last_run` and `total_jobs` metadata keys. -/
def save_jobsDB (upd : Job → Job → Job) (db : DB) (now : String) (jobs : List Job) : DB :=
  { scraped_jobs := replaceRows upd jobs,
    scraper_meta :=
      metaUpsert (metaUpsert db.scraper_meta "last_run" now)
        "total_jobs" (toString jobs.length) }

/-- What save_jobs in api/helpers.py returns on success. -/
structure SaveResult where
  total : Nat
  scraped_at : String
deriving DecidableEq

/-- api/helpers.py save_jobs: every exception is caught; a failed write leaves
the store as it was (nothing committed) and yields `{'total': 0, ...}`,
indistinguishable from saving an empty set. -/
def save_jobs_api (fails : Bool) (db : DB) (now : String) (jobs : List Job) :
    DB × SaveResult :=
  if fails then (db, { total := 0, scraped_at := now })
  else (save_jobsDB updApi db now jobs, { total := jobs.length, scraped_at := now })

/-- scraper.py save_jobs: no handler around it, a write error propagates to
the caller; nothing is committed in that case. -/
def save_jobs_cli (fails : Bool) (db : DB) (now : String) (jobs : List Job) :
    Except String DB :=
  if fails then .error "save_jobs error" else .ok (save_jobsDB updCli db now jobs)

/-! ## Source adapters (the network boundary is the parsed item list) -/

/-- One ReliefWeb API item, after JSON parsing: the `item['id']` when present
and the used members of `item['fields']`. `srcName` is the first source's
name when the source list is non-empty and carries one (both absences
default to `'NGO'`). -/
structure RWItem where
  rid : Option String := none
  title : String := ""
  body : String := ""
  srcName : Option String := none
  created : Option String := none
  url : String := ""
deriving DecidableEq

/-- The append loop shared by the three adapters: `emit` gets the current
`len(jobs)` ordinal; items mapping to `none` are skipped (`continue`). -/
def adapterGo {α : Type} (emit : Nat → α → Option Job) : List α → List Job → List Job
  | [], acc => acc
  | it :: its, acc =>
    match emit acc.length it with
    | some j => adapterGo emit its (acc ++ [j])
    | none => adapterGo emit its acc

/-- The posting scrape_reliefweb builds from one item (`None` = the `continue`
on an empty cleaned title). -/
def rwItemJob (now : String) (n : Nat) (it : RWItem) : Option Job :=
  let title := cleanL it.title.data
  if title.isEmpty then none
  else
    let body := cleanL (strip_htmlL it.body.data)
    let tb : String := ⟨title ++ ' ' :: body⟩
    some {
      id := "rw-" ++ it.rid.getD (toString n),
      title := ⟨title⟩,
      company := it.srcName.getD "NGO",
      location := extract_county tb ++ ", Kenya",
      county := extract_county tb,
      jtype := detect_type tb,
      sector := detect_sector ⟨title⟩,
      salary := "Not stated",
      deadline := "",
      link := it.url,
      apply_email := extract_email ⟨body⟩,
      description := ⟨body.take 2000⟩,
      source := "ReliefWeb",
      scraped_at := it.created.getD now }

/-- helpers.scrape_reliefweb / scraper.scrape_reliefweb on fetched items. -/
def scrape_reliefweb (now : String) (items : List RWItem) : List Job :=
  adapterGo (rwItemJob now) items []

/-- One Remotive API job object, after JSON parsing. -/
structure RemItem where
  title : String := ""
  company_name : String := ""
  category : String := ""
  salary : String := ""
  url : String := ""
  description : String := ""
  publication_date : Option String := none
deriving DecidableEq

def remItemJob (now : String) (n : Nat) (it : RemItem) : Option Job :=
  let title := cleanL it.title.data
  if title.isEmpty then none
  else
    let desc := cleanL (strip_htmlL it.description.data)
    some {
      id := "rem-" ++ toString n,
      title := ⟨title⟩,
      company := clean it.company_name,
      location := "Remote / Online",
      county := "Remote",
      jtype := "Remote",
      sector := detect_sector ⟨title ++ ' ' :: it.category.data⟩,
      salary := if it.salary = "" then "Not stated" else it.salary,
      deadline := "",
      link := it.url,
      apply_email := "",
      description := ⟨desc.take 2000⟩,
      source := "Remotive (Remote)",
      scraped_at := it.publication_date.getD now }

/-- helpers.scrape_remotive / scraper.scrape_remotive on fetched items. -/
def scrape_remotive (now : String) (items : List RemItem) : List Job :=
  adapterGo (remItemJob now) items []

/-- One RSS/Atom entry: the text of the title/description/summary/link
elements when present (RSS-style or Atom-namespaced, whichever was found),
plus the href attribute of a link element for the Atom fallback. -/
structure RssItem where
  titleTxt : Option String := none
  descTxt : Option String := none
  summaryTxt : Option String := none
  linkTxt : Option String := none
  linkHref : Option String := none
deriving DecidableEq

/-- parse_rss's local `get`: the found element's text run through clean,
else the empty string. -/
def rssGet (o : Option String) : List Char := cleanL (o.getD "").data

/-- Python `s.split(sep, 1)` when `sep in s`: the parts around the first
occurrence; `none` when `sep` does not occur (`sep` is never empty here). -/
def splitFirst (sep : List Char) : List Char → Option (List Char × List Char)
  | [] => if startsWithL sep [] then some ([], []) else none
  | c :: cs =>
    if startsWithL sep (c :: cs) then some ([], (c :: cs).drop sep.length)
    else
      match splitFirst sep cs with
      | some (a, b) => some (c :: a, b)
      | none => none

/-- The company-splitting loop over `[' at ', ' - ', ' | ']`: the first
separator found splits the title; with none, the feed name is the company. -/
def rssSplitTitle (name : String) (titleC : List Char) : List Char × List Char :=
  match splitFirst " at ".data titleC with
  | some (a, b) => (trimL a, trimL b)
  | none =>
    match splitFirst " - ".data titleC with
    | some (a, b) => (trimL a, trimL b)
    | none =>
      match splitFirst " | ".data titleC with
      | some (a, b) => (trimL a, trimL b)
      | none => (titleC, name.data)

def rssItemJob (name now : String) (n : Nat) (it : RssItem) : Option Job :=
  let title0 := rssGet it.titleTxt
  if title0.isEmpty || title0.length < 4 then none
  else
    let raw := rssGet it.descTxt
    let raw := if raw.isEmpty then rssGet it.summaryTxt else raw
    let desc := cleanL (strip_htmlL raw)
    let link0 := rssGet it.linkTxt
    let link := if link0.isEmpty then (it.linkHref.getD "").data else link0
    let tc := rssSplitTitle name title0
    let td : String := ⟨tc.1 ++ ' ' :: desc⟩
    let slug := ((lowerL name.data).filter Char.isLower).take 6
    some {
      id := ⟨slug ++ '-' :: (toString n).data⟩,
      title := ⟨tc.1⟩,
      company := ⟨tc.2⟩,
      location := extract_county td ++ ", Kenya",
      county := extract_county td,
      jtype := detect_type td,
      sector := detect_sector td,
      salary := "Not stated",
      deadline := "",
      link := ⟨link⟩,
      apply_email := extract_email ⟨desc⟩,
      description := ⟨desc.take 2000⟩,
      source := name,
      scraped_at := now }

/-- helpers.parse_rss / scraper.parse_rss on parsed feed entries
(`items[:40]`). -/
def parse_rss (name now : String) (items : List RssItem) : List Job :=
  adapterGo (rssItemJob name now) (items.take 40) []

/-! ## Orchestrator and HTTP handlers -/

/-- api/helpers.py run_all_scrapers: concatenate the adapter outputs in the
fixed order (ReliefWeb, Remotive, then the configured feeds), deduplicate,
and hand the set to save_jobs.  `fails` models a persistence error. -/
def run_all_scrapers (fails : Bool) (db : DB) (now : String)
    (rw : List RWItem) (rem : List RemItem) (feeds : List (String × List RssItem)) :
    DB × SaveResult :=
  let all := scrape_reliefweb now rw ++ scrape_remotive now rem
  let all := feeds.foldl (fun acc f => acc ++ parse_rss f.1 now f.2) all
  save_jobs_api fails db now (deduplicate all)

/-- The JSON body api/scrape.py sends (absent keys are `none`).  The 500
branch of do_POST is unreachable in this model because run_all_scrapers
catches every failure internally. -/
structure PostResp where
  status : Nat
  success : Option Bool := none
  error : Option String := none
  total_jobs : Option Nat := none
  scraped_at : Option String := none
deriving DecidableEq

/-- api/scrape.py handler.do_POST: the admin-token gate, then one run. -/
def scrape_do_POST (secret token : String) (fails : Bool) (db : DB) (now : String)
    (rw : List RWItem) (rem : List RemItem) (feeds : List (String × List RssItem)) :
    PostResp × DB :=
  if token = secret then
    let r := run_all_scrapers fails db now rw rem feeds
    ({ status := 200, success := some true, total_jobs := some r.2.total,
       scraped_at := some r.2.scraped_at }, r.1)
  else ({ status := 401, error := some "Unauthorized" }, db)

/-- scraper.py `__main__`: returns (exit code, resulting DB).  A missing
POSTGRES_URL is `exit(1)`; an uncaught psycopg2 error out of save_jobs
terminates the interpreter with exit code 1 and commits nothing. -/
def scraper_main (dbUrl : String) (fails : Bool) (db : DB) (now : String)
    (rw : List RWItem) (rem : List RemItem) (feeds : List (String × List RssItem)) :
    Nat × DB :=
  if dbUrl = "" then (1, db)
  else
    let all := scrape_reliefweb now rw ++ scrape_remotive now rem
    let all := feeds.foldl (fun acc f => acc ++ parse_rss f.1 now f.2) all
    match save_jobs_cli fails db now (deduplicate all) with
    | .ok db2 => (0, db2)
    | .error _ => (1, db)

/-! ## Read path -/

/-- Total order on the TEXT column values used by `ORDER BY scraped_at`
(codepoint comparison). -/
def leChars : List Char → List Char → Bool
  | [], _ => true
  | _ :: _, [] => false
  | a :: as, b :: bs =>
    if a.toNat < b.toNat then true
    else if b.toNat < a.toNat then false
    else leChars as bs

def insertDesc (j : Job) : List Job → List Job
  | [] => [j]
  | k :: ks =>
    if leChars k.scraped_at.data j.scraped_at.data then j :: k :: ks
    else k :: insertDesc j ks

/-- `ORDER BY scraped_at DESC` as an insertion sort. -/
def sortByDateDesc (rows : List Job) : List Job := rows.foldr insertDesc []

/-- What load_jobs returns (`scraped_at` is the last_run metadata value). -/
structure LoadResult where
  total : Nat
  scraped_at : Option String
  jobs : List Job
deriving DecidableEq

/-- api/helpers.py load_jobs: the SQL query over the row list.  Empty filter
strings add no condition; each condition is `LOWER(col) LIKE '%param%'`
with the parameter lowercased, i.e. a case-insensitive substring test. -/
def load_jobs (db : DB) (county jtype keyword : String) (limit : Nat) : LoadResult :=
  let rows := db.scraped_jobs
  let rows :=
    if county = "" then rows
    else rows.filter (fun j => hasSub (lowerL county.data) (lowerL j.county.data))
  let rows :=
    if jtype = "" then rows
    else rows.filter (fun j => hasSub (lowerL jtype.data) (lowerL j.jtype.data))
  let rows :=
    if keyword = "" then rows
    else rows.filter (fun j =>
      hasSub (lowerL keyword.data) (lowerL j.title.data)
      || hasSub (lowerL keyword.data) (lowerL j.company.data))
  let rows := (sortByDateDesc rows).take limit
  { total := rows.length, scraped_at := metaGet db.scraper_meta "last_run", jobs := rows }

/-- The JSON body api/jobs.py sends. -/
structure JobsResp where
  total : Nat
  scraped_at : Option String
  jobs : List Job
deriving DecidableEq

/-- api/jobs.py handler.do_GET, query params already URL-decoded and `limit`
already parsed.  The handler lowercases the params, caps limit with
`min(..., 200)`, calls `load_jobs()` WITH ITS DEFAULTS (no filters,
limit 80), then filters in Python and slices `jobs[:limit]`.  The keyword
is tested against `(title + ' ' + company).lower()`. -/
def jobs_do_GET (db : DB) (county jtype keyword : String) (limitParam : Nat) : JobsResp :=
  let countyL := lowerL county.data
  let jtypeL := lowerL jtype.data
  let keywordL := lowerL keyword.data
  let limit := min limitParam 200
  let data := load_jobs db "" "" "" 80
  let jobs := data.jobs
  let jobs :=
    if countyL.isEmpty then jobs
    else jobs.filter (fun j => hasSub countyL (lowerL j.county.data))
  let jobs :=
    if jtypeL.isEmpty then jobs
    else jobs.filter (fun j => hasSub jtypeL (lowerL j.jtype.data))
  let jobs :=
    if keywordL.isEmpty then jobs
    else jobs.filter (fun j => hasSub keywordL (lowerL (j.title.data ++ ' ' :: j.company.data)))
  { total := jobs.length, scraped_at := data.scraped_at, jobs := jobs.take limit }

/-- Python `int()` on the decimal strings that can stand in scraper_meta:
optional surrounding whitespace and sign, then a non-empty digit run;
anything else raises (modelled as `none`). -/
def digitsValAux (acc : Nat) : List Char → Option Nat
  | [] => some acc
  | c :: cs => if c.isDigit then digitsValAux (acc * 10 + (c.toNat - 48)) cs else none

def digitsVal : List Char → Option Nat
  | [] => none
  | cs => digitsValAux 0 cs

def pyInt (s : String) : Option Int :=
  match trimL s.data with
  | '-' :: ds => (digitsVal ds).map (fun n => -(n : Int))
  | '+' :: ds => (digitsVal ds).map (fun n => (n : Int))
  | ds => (digitsVal ds).map (fun n => (n : Int))

/-- The JSON body of the status surface. -/
structure StatusResp where
  status : String
  total_jobs : Int
  last_run : Option String
deriving DecidableEq

/-- api/helpers.py get_status: reads the two metadata keys; `int()` raising
on a malformed value lands in the except branch (`status: 'error'`). -/
def get_status (db : DB) : StatusResp :=
  let r1 := metaGet db.scraper_meta "last_run"
  match metaGet db.scraper_meta "total_jobs" with
  | some v =>
    match pyInt v with
    | some n => { status := if r1.isSome then "ok" else "no_data", total_jobs := n, last_run := r1 }
    | none => { status := "error", total_jobs := 0, last_run := none }
  | none => { status := if r1.isSome then "ok" else "no_data", total_jobs := 0, last_run := r1 }

/-- api/status.py handler.do_GET: built from `load_jobs()` (not get_status);
the `if not data` branch is unreachable because load_jobs always returns
a dict, so the reported status is always `'ok'`. -/
def status_do_GET (db : DB) : StatusResp :=
  let data := load_jobs db "" "" "" 80
  { status := "ok", total_jobs := (data.total : Int), last_run := data.scraped_at }

/-! ## Enumerations and the record invariant of the spec -/

def typeValues : List String :=
  ["Internship", "Part-Time", "Government", "NGO", "Remote", "Contract", "Full-Time"]

def sectorValues : List String :=
  ["ICT & Technology", "Health & Medicine", "Finance & Banking", "Engineering",
   "Education", "Agriculture", "Marketing & Sales", "NGO / Non-Profit", "Legal",
   "Transport & Logistics", "General"]

/-- The Posting invariant of claim C7. -/
def GoodJob (j : Job) : Prop :=
  j.title ≠ ""
  ∧ j.jtype ∈ typeValues
  ∧ (j.county ∈ counties ∨ j.county = "Remote" ∨ j.county = "Nairobi")
  ∧ j.sector ∈ sectorValues
  ∧ j.description.length ≤ 2000

/-- The filter predicate of api/jobs.py do_GET, as claim C6 words it (with
the keyword tested against the title-space-company concatenation). -/
def matchesFilters (county jtype keyword : String) (j : Job) : Bool :=
  (county == "" || hasSub (lowerL county.data) (lowerL j.county.data))
  && (jtype == "" || hasSub (lowerL jtype.data) (lowerL j.jtype.data))
  && (keyword == "" || hasSub (lowerL keyword.data) (lowerL (j.title.data ++ ' ' :: j.company.data)))

/-- First element relation of the descending order on fetch timestamps. -/
def newerEq (a b : Job) : Prop := leChars b.scraped_at.data a.scraped_at.data = true

/-! ## Concrete inputs used by the witnesses and counterexamples -/

def jobA : Job := { id := "a", title := "Job A" }
def jobB : Job := { id := "b", title := "Job B" }
def jobC : Job := { id := "c", title := "Job C" }

/-- A store with one posting row and an empty metadata relation. -/
def dbC5 : DB := ⟨[{}], []⟩

/-- A store with 81 posting rows, all carrying the same fields. -/
def dbBig : DB := ⟨List.replicate 81 {}, [("last_run", "t")]⟩

def rwSample : RWItem := { title := "Accountant", body := "", url := "u" }

/-- The posting the ReliefWeb adapter emits for `rwSample` at ordinal 0. -/
def rwSampleJob : Job :=
  { id := "rw-0", title := "Accountant", company := "NGO",
    location := "Nairobi, Kenya", county := "Nairobi", jtype := "Full-Time",
    sector := "Finance & Banking", salary := "Not stated", deadline := "",
    link := "u", apply_email := "", description := "", source := "ReliefWeb",
    scraped_at := "t" }

/-- A metadata relation holding both scraper keys. -/
def metaW5 : List (String × String) := [("last_run", "t"), ("total_jobs", "5")]

/-! ## Deduplication: claim C4 -/

theorem dedupAux_sublist (seen : List (List Char)) (xs : List Job) :
    List.Sublist (dedupAux seen xs) xs := by
  induction xs generalizing seen with
  | nil => simp [dedupAux]
  | cons j js ih =>
    simp only [dedupAux]
    split
    · exact (ih seen).cons j
    · exact (ih (dedupKey j :: seen)).cons₂ j

theorem dedupAux_find? (seen : List (List Char)) (xs : List Job) (k : List Char)
    (hk : k ∉ seen) :
    (dedupAux seen xs).find? (fun j => dedupKey j == k)
      = xs.find? (fun j => dedupKey j == k) := by
  induction xs generalizing seen with
  | nil => simp [dedupAux]
  | cons j js ih =>
    simp only [dedupAux]
    by_cases hj : dedupKey j ∈ seen
    · rw [if_pos hj]
      have hne : ¬ dedupKey j = k := fun h => hk (h ▸ hj)
      rw [ih seen hk, List.find?_cons_of_neg _ (by simp [hne])]
    · rw [if_neg hj]
      by_cases hjk : dedupKey j = k
      · rw [List.find?_cons_of_pos _ (by simp [hjk]),
          List.find?_cons_of_pos _ (by simp [hjk])]
      · rw [List.find?_cons_of_neg _ (by simp [hjk]),
          List.find?_cons_of_neg _ (by simp [hjk])]
        refine ih _ ?_
        intro h
        rcases List.mem_cons.mp h with h | h
        · exact hjk h.symm
        · exact hk h

theorem dedupAux_keys (seen : List (List Char)) (xs : List Job) :
    ((dedupAux seen xs).map dedupKey).Nodup
    ∧ ∀ j ∈ dedupAux seen xs, dedupKey j ∉ seen := by
  induction xs generalizing seen with
  | nil => simp [dedupAux]
  | cons j js ih =>
    simp only [dedupAux]
    split
    · exact ⟨(ih seen).1, (ih seen).2⟩
    · rename_i hj
      obtain ⟨ihn, ihs⟩ := ih (dedupKey j :: seen)
      constructor
      · simp only [List.map_cons, List.nodup_cons]
        refine ⟨?_, ihn⟩
        intro hmem
        rcases List.mem_map.mp hmem with ⟨x, hx, hkx⟩
        exact ihs x hx (by rw [hkx]; exact List.mem_cons_self _ _)
      · intro x hx
        rcases List.mem_cons.mp hx with rfl | hx
        · exact hj
        · exact fun hmem => ihs x hx (List.mem_cons_of_mem _ hmem)

theorem dedupAux_fixed (seen : List (List Char)) (xs : List Job)
    (h1 : (xs.map dedupKey).Nodup) (h2 : ∀ j ∈ xs, dedupKey j ∉ seen) :
    dedupAux seen xs = xs := by
  induction xs generalizing seen with
  | nil => rfl
  | cons j js ih =>
    have h1' : dedupKey j ∉ js.map dedupKey ∧ (js.map dedupKey).Nodup :=
      List.nodup_cons.mp (by simpa using h1)
    simp only [dedupAux, if_neg (h2 j (List.mem_cons_self _ _))]
    congr 1
    refine ih _ h1'.2 ?_
    intro x hx hmem
    rcases List.mem_cons.mp hmem with he | hmem
    · exact h1'.1 (he ▸ List.mem_map_of_mem dedupKey hx)
    · exact h2 x (List.mem_cons_of_mem _ hx) hmem

/-- Claim C4: deduplicate keeps, for every dedup key, exactly the first
posting carrying that key in input order (the result is a subsequence whose
keys are pairwise distinct and whose first hit per key agrees with the
input's), it is idempotent, and it never lengthens the list. -/
theorem C4_deduplicate (xs : List Job) :
    List.Sublist (deduplicate xs) xs
    ∧ ((deduplicate xs).map dedupKey).Nodup
    ∧ (∀ k : List Char,
        (deduplicate xs).find? (fun j => dedupKey j == k)
          = xs.find? (fun j => dedupKey j == k))
    ∧ deduplicate (deduplicate xs) = deduplicate xs
    ∧ (deduplicate xs).length ≤ xs.length := by
  obtain ⟨hn, -⟩ := dedupAux_keys [] xs
  refine ⟨dedupAux_sublist [] xs, hn,
    fun k => dedupAux_find? [] xs k (by simp), ?_,
    (dedupAux_sublist [] xs).length_le⟩
  exact dedupAux_fixed [] (dedupAux [] xs) hn (by simp)

/-! ## Classifier priority: claims C8, C9 and the key collision C10 -/

/-- Claim C8: detect_type evaluates its keyword categories in the fixed
priority order with the first match winning: any text hitting both an
Internship keyword and a Government keyword is classified Internship. -/
theorem C8_detect_type_priority (text : String)
    (hI : kwHit ["intern", "attachment", "graduate trainee"] (lowerL text.data) = true)
    (_hG : kwHit ["government", "county", "ministry", "psc"] (lowerL text.data) = true) :
    detect_type text = "Internship" := by
  simp only [detect_type, hI, if_true]

theorem C8_witness :
    kwHit ["intern", "attachment", "graduate trainee"] (lowerL "government intern".data) = true
    ∧ kwHit ["government", "county", "ministry", "psc"] (lowerL "government intern".data) = true
    ∧ detect_type "government intern" = "Internship" :=
  ⟨by decide, by decide, C8_detect_type_priority "government intern" (by decide) (by decide)⟩

/-- Claim C9: employment-type matching is plain substring containment, not
whole-word matching: any text whose lowercase form contains `intern` is
classified Internship. -/
theorem C9_detect_type_substring (text : String)
    (h : hasSub "intern".data (lowerL text.data) = true) :
    detect_type text = "Internship" := by
  have hk : kwHit ["intern", "attachment", "graduate trainee"] (lowerL text.data) = true := by
    simp [kwHit, h]
  simp only [detect_type, hk, if_true]

theorem C9_witness :
    hasSub "intern".data (lowerL "International Sales Manager".data) = true
    ∧ detect_type "International Sales Manager" = "Internship" :=
  ⟨by decide, C9_detect_type_substring "International Sales Manager" (by decide)⟩

/-- Claim C10: the dedup key is not injective in the (title, company) pair:
title `a|b` with company `c` collides with title `a` with company `b|c`,
so deduplicate discards the second posting although the pairs differ. -/
theorem C10_dedup_key_collision :
    ((⟨"a|b", "c"⟩ : String × String) ≠ (⟨"a", "b|c"⟩ : String × String))
    ∧ dedupKey { title := "a|b", company := "c" } = dedupKey { title := "a", company := "b|c" }
    ∧ deduplicate [{ title := "a|b", company := "c" }, { title := "a", company := "b|c" }]
        = [{ title := "a|b", company := "c" }] := by
  decide

/-! ## Full-replace persistence: claim C1 -/

theorem upsertRow_append (upd : Job → Job → Job) (t : List Job) (r : Job)
    (h : ∀ x ∈ t, x.id ≠ r.id) : upsertRow upd t r = t ++ [r] := by
  have hany : t.any (fun x => x.id == r.id) = false := by
    rw [List.any_eq_false]
    intro x hx
    simp [h x hx]
  simp [upsertRow, hany]

theorem replaceRows_go (upd : Job → Job → Job) (jobs : List Job) (acc : List Job)
    (hd : ∀ j ∈ jobs, ∀ x ∈ acc, x.id ≠ j.id)
    (h : (jobs.map Job.id).Nodup) :
    jobs.foldl (fun t j => upsertRow upd t (toRow j)) acc = acc ++ jobs.map toRow := by
  induction jobs generalizing acc with
  | nil => simp
  | cons j js ih =>
    have hid : (toRow j).id = j.id := rfl
    have h1 : j.id ∉ js.map Job.id ∧ (js.map Job.id).Nodup :=
      List.nodup_cons.mp (by simpa using h)
    simp only [List.foldl_cons]
    rw [upsertRow_append upd acc (toRow j)
      (fun x hx => by rw [hid]; exact hd j (List.mem_cons_self _ _) x hx)]
    rw [ih (acc ++ [toRow j]) ?_ h1.2]
    · simp
    · intro j2 hj2 x hx
      rcases List.mem_append.mp hx with hx | hx
      · exact hd j2 (List.mem_cons_of_mem _ hj2) x hx
      · simp only [List.mem_singleton] at hx
        subst hx

        rw [hid]
        intro he
        exact h1.1 (he ▸ List.mem_map_of_mem Job.id hj2)

/-- Claim C1: after save_jobs completes on a set of postings with pairwise
distinct ids and in-bound descriptions, the stored posting set equals the
given set exactly, whatever the prior store held — both for the
api/helpers.py writer and for the scraper.py writer. -/
theorem C1_save_jobs_full_replace (db : DB) (now : String) (jobs : List Job)
    (h1 : (jobs.map Job.id).Nodup)
    (h2 : ∀ j ∈ jobs, j.description.length ≤ 2000) :
    (save_jobsDB updApi db now jobs).scraped_jobs = jobs
    ∧ (save_jobsDB updCli db now jobs).scraped_jobs = jobs := by
  have hrow : jobs.map toRow = jobs := by
    have : ∀ j ∈ jobs, toRow j = j := by
      intro j hj
      have ht : j.description.data.take 2000 = j.description.data :=
        List.take_of_length_le (h2 j hj)
      simp [toRow, ht]
    calc jobs.map toRow = jobs.map id := List.map_congr_left this
      _ = jobs := List.map_id jobs
  constructor
  · show replaceRows updApi jobs = jobs
    rw [replaceRows, replaceRows_go updApi jobs [] (by simp) h1, hrow]
    simp
  · show replaceRows updCli jobs = jobs
    rw [replaceRows, replaceRows_go updCli jobs [] (by simp) h1, hrow]
    simp

theorem C1_witness :
    ((([jobB, jobC].map Job.id).Nodup ∧ ∀ j ∈ [jobB, jobC], j.description.length ≤ 2000)
      ∧ (save_jobsDB updApi (save_jobsDB updApi {} "t1" [jobA, jobB]) "t2" [jobB, jobC]).scraped_jobs
          = [jobB, jobC]) :=
  ⟨⟨by decide, by decide⟩,
    (C1_save_jobs_full_replace (save_jobsDB updApi {} "t1" [jobA, jobB]) "t2" [jobB, jobC]
      (by decide) (by decide)).1⟩

/-! ## The HTTP trigger: claims C3 and C2 -/

/-- Claim C3: a POST /scrape whose X-Admin-Token differs from the configured
secret is answered 401 `{error: Unauthorized}` and the store — posting rows
and metadata, hence also last_run — is left exactly as it was. -/
theorem C3_unauthorized (secret token now : String) (fails : Bool) (db : DB)
    (rw : List RWItem) (rem : List RemItem) (feeds : List (String × List RssItem))
    (h : token ≠ secret) :
    (scrape_do_POST secret token fails db now rw rem feeds).1
      = { status := 401, error := some "Unauthorized" }
    ∧ (scrape_do_POST secret token fails db now rw rem feeds).2 = db := by
  rw [scrape_do_POST, if_neg h]
  exact ⟨rfl, rfl⟩

theorem C3_witness :
    (("wrong" : String) ≠ "jobskenya-secret-2025"
    ∧ (scrape_do_POST "jobskenya-secret-2025" "wrong" false ⟨[jobA], [("last_run", "t0")]⟩
        "t1" [rwSample] [] []).1 = { status := 401, error := some "Unauthorized" }
    ∧ (scrape_do_POST "jobskenya-secret-2025" "wrong" false ⟨[jobA], [("last_run", "t0")]⟩
        "t1" [rwSample] [] []).2 = ⟨[jobA], [("last_run", "t0")]⟩) :=
  ⟨by decide,
    (C3_unauthorized "jobskenya-secret-2025" "wrong" "t1" false ⟨[jobA], [("last_run", "t0")]⟩
      [rwSample] [] [] (by decide)).1,
    (C3_unauthorized "jobskenya-secret-2025" "wrong" "t1" false ⟨[jobA], [("last_run", "t0")]⟩
      [rwSample] [] [] (by decide)).2⟩

/-- Claim C2 is false on the HTTP path: with the persistence write failing
and a valid token, do_POST still answers 200 with success true, total_jobs
0 and no error field — the failure reason is not carried, the failure is
converted into a successful run. -/
theorem C2_counterexample :
    (scrape_do_POST "s" "s" true ⟨[], []⟩ "t" [] [] []).1
      = { status := 200, success := some true, total_jobs := some 0,
          scraped_at := some "t" }
    ∧ (scrape_do_POST "s" "s" true ⟨[], []⟩ "t" [] [] []).1.error = none := by
  decide

/-- Claim C2 (amended): on a persistence failure the standalone scraper does
exit non-zero committing nothing, but the HTTP trigger's save_jobs catches
the error, so do_POST reports a successful run: 200, success true,
total_jobs 0, no failure reason, store unchanged. -/
theorem C2_amended (dbUrl secret now now2 : String) (db db2 : DB)
    (rw : List RWItem) (rem : List RemItem) (feeds : List (String × List RssItem))
    (hurl : dbUrl ≠ "") :
    scraper_main dbUrl true db now rw rem feeds = (1, db)
    ∧ (scrape_do_POST secret secret true db2 now2 rw rem feeds).1
        = { status := 200, success := some true, total_jobs := some 0,
            scraped_at := some now2 }
    ∧ (scrape_do_POST secret secret true db2 now2 rw rem feeds).2 = db2 := by
  refine ⟨?_, ?_, ?_⟩
  · rw [scraper_main, if_neg hurl]
    simp [save_jobs_cli]
  · simp [scrape_do_POST, run_all_scrapers, save_jobs_api]
  · simp [scrape_do_POST, run_all_scrapers, save_jobs_api]

theorem C2_witness :
    (("postgres://x" : String) ≠ ""
    ∧ scraper_main "postgres://x" true ⟨[jobA], []⟩ "t" [rwSample] [] [] = (1, ⟨[jobA], []⟩)
    ∧ (scrape_do_POST "s" "s" true ⟨[jobB], []⟩ "t2" [rwSample] [] []).1
        = { status := 200, success := some true, total_jobs := some 0,
            scraped_at := some "t2" }
    ∧ (scrape_do_POST "s" "s" true ⟨[jobB], []⟩ "t2" [rwSample] [] []).2 = ⟨[jobB], []⟩) :=
  ⟨by decide,
    (C2_amended "postgres://x" "s" "t" "t2" ⟨[jobA], []⟩ ⟨[jobB], []⟩ [rwSample] [] []
      (by decide)).1,
    (C2_amended "postgres://x" "s" "t" "t2" ⟨[jobA], []⟩ ⟨[jobB], []⟩ [rwSample] [] []
      (by decide)).2.1,
    (C2_amended "postgres://x" "s" "t" "t2" ⟨[jobA], []⟩ ⟨[jobB], []⟩ [rwSample] [] []
      (by decide)).2.2⟩

/-! ## The status surface: claim C5 -/

/-- Claim C5 is false: with one stored posting row and an empty metadata
relation, GET /status reports ok with total_jobs 1 — the posting relation's
row count — although the metadata holds neither last_run nor total_jobs
(the claim would demand no_data and a metadata-derived count). -/
theorem C5_counterexample :
    (status_do_GET dbC5).status = "ok"
    ∧ (status_do_GET dbC5).total_jobs = 1
    ∧ (status_do_GET dbC5).last_run = none
    ∧ metaGet dbC5.scraper_meta "last_run" = none
    ∧ metaGet dbC5.scraper_meta "total_jobs" = none := by
  decide

/-- Claim C5 (amended): GET /status is built from load_jobs(), not from the
metadata relation alone: its status is always ok (the no_data branch is
unreachable), its total_jobs is the count of rows load_jobs returns (at
most 80) and only last_run comes from the metadata.  The helper get_status
— which the endpoint does not call — behaves as the claim states. -/
theorem C5_amended (db : DB) (v : String) (n : Int)
    (hv : metaGet db.scraper_meta "total_jobs" = some v)
    (hn : pyInt v = some n) :
    (status_do_GET db).status = "ok"
    ∧ (status_do_GET db).last_run = metaGet db.scraper_meta "last_run"
    ∧ (status_do_GET db).total_jobs = ((load_jobs db "" "" "" 80).total : Int)
    ∧ get_status db
        = { status := if (metaGet db.scraper_meta "last_run").isSome then "ok" else "no_data",
            total_jobs := n,
            last_run := metaGet db.scraper_meta "last_run" } := by
  refine ⟨rfl, rfl, rfl, ?_⟩
  simp only [get_status, hv, hn]

theorem C5_witness :
    (metaGet metaW5 "total_jobs" = some "5"
    ∧ pyInt "5" = some 5
    ∧ get_status ⟨[], metaW5⟩
        = { status := if (metaGet metaW5 "last_run").isSome then "ok" else "no_data",
            total_jobs := 5,
            last_run := metaGet metaW5 "last_run" }) :=
  ⟨by decide, by decide, (C5_amended ⟨[], metaW5⟩ "5" 5 (by decide) (by decide)).2.2.2⟩

/-! ## The jobs read surface: claim C6 -/

theorem leChars_total (a b : List Char) : leChars a b = true ∨ leChars b a = true := by
  induction a generalizing b with
  | nil => exact Or.inl rfl
  | cons x xs ih =>
    cases b with
    | nil => exact Or.inr rfl
    | cons y ys =>
      simp only [leChars]
      by_cases h1 : x.toNat < y.toNat
      · left; simp [h1]
      · by_cases h2 : y.toNat < x.toNat
        · right; simp [h2]
        · rcases ih ys with h | h
          · left; simp [h1, h2, h]
          · right; simp [h1, h2, h]

theorem leChars_trans (a b c : List Char)
    (h1 : leChars a b = true) (h2 : leChars b c = true) : leChars a c = true := by
  induction a generalizing b c with
  | nil => rfl
  | cons x xs ih =>
    cases b with
    | nil => simp [leChars] at h1
    | cons y ys =>
      cases c with
      | nil => simp [leChars] at h2
      | cons z zs =>
        simp only [leChars] at h1 h2 ⊢
        have hx : x.toNat < y.toNat ∨ (x.toNat = y.toNat ∧ leChars xs ys = true) := by
          by_cases hxy : x.toNat < y.toNat
          · exact Or.inl hxy
          · by_cases hyx : y.toNat < x.toNat
            · simp [hxy, hyx] at h1
            · exact Or.inr ⟨by omega, by simpa [hxy, hyx] using h1⟩
        have hy : y.toNat < z.toNat ∨ (y.toNat = z.toNat ∧ leChars ys zs = true) := by
          by_cases hyz : y.toNat < z.toNat
          · exact Or.inl hyz
          · by_cases hzy : z.toNat < y.toNat
            · simp [hyz, hzy] at h2
            · exact Or.inr ⟨by omega, by simpa [hyz, hzy] using h2⟩
        rcases hx with hx | ⟨hxe, hxt⟩ <;> rcases hy with hy | ⟨hye, hyt⟩
        · rw [if_pos (show x.toNat < z.toNat by omega)]
        · rw [if_pos (show x.toNat < z.toNat by omega)]
        · rw [if_pos (show x.toNat < z.toNat by omega)]
        · rw [if_neg (show ¬ x.toNat < z.toNat by omega),
            if_neg (show ¬ z.toNat < x.toNat by omega)]
          exact ih ys zs hxt hyt

theorem insertDesc_perm (j : Job) (l : List Job) :
    List.Perm (insertDesc j l) (j :: l) := by
  induction l with
  | nil => exact List.Perm.refl _
  | cons k ks ih =>
    simp only [insertDesc]
    split
    · exact List.Perm.refl _
    · exact (ih.cons k).trans (List.Perm.swap j k ks)

theorem sortByDateDesc_perm (l : List Job) :
    List.Perm (sortByDateDesc l) l := by
  induction l with
  | nil => exact List.Perm.refl _
  | cons j js ih =>
    simp only [sortByDateDesc, List.foldr_cons] at *
    exact (insertDesc_perm j _).trans (ih.cons j)

theorem mem_insertDesc (j x : Job) (l : List Job) :
    x ∈ insertDesc j l ↔ x = j ∨ x ∈ l := by
  have h := (insertDesc_perm j l).mem_iff (a := x)
  simpa using h

theorem insertDesc_pairwise (j : Job) (l : List Job)
    (h : List.Pairwise newerEq l) :
    List.Pairwise newerEq (insertDesc j l) := by
  induction l with
  | nil => simp [insertDesc, newerEq]
  | cons k ks ih =>
    simp only [insertDesc]
    split
    · rename_i hle
      refine List.Pairwise.cons ?_ h
      intro x hx
      rcases List.mem_cons.mp hx with rfl | hx
      · exact hle
      · exact leChars_trans _ _ _ ((List.pairwise_cons.mp h).1 x hx) hle
    · rename_i hle
      have h' := List.pairwise_cons.mp h
      refine List.Pairwise.cons ?_ (ih h'.2)
      intro x hx
      rcases (mem_insertDesc j x ks).mp hx with rfl | hx
      · rcases leChars_total k.scraped_at.data x.scraped_at.data with ht | ht
        · exact absurd ht hle
        · exact ht
      · exact h'.1 x hx

theorem sortByDateDesc_pairwise (l : List Job) :
    List.Pairwise newerEq (sortByDateDesc l) := by
  induction l with
  | nil => exact List.Pairwise.nil
  | cons j js ih =>
    simp only [sortByDateDesc, List.foldr_cons] at *
    exact insertDesc_pairwise j _ ih

theorem lowerL_nonempty (s : String) (h : ¬ s = "") :
    (lowerL s.data).isEmpty = false := by
  cases s with
  | mk d =>
    cases d with
    | nil => exact absurd rfl h
    | cons c cs => rfl

/-- One Python-side filter step of api/jobs.py, folded into a predicate. -/
theorem filter_if_empty (s : String) (f : Job → Bool) (l : List Job) :
    (if (lowerL s.data).isEmpty then l else l.filter f)
      = l.filter (fun j => (s == "") || f j) := by
  by_cases hs : s = ""
  · subst hs
    rw [if_pos (show (lowerL ("" : String).data).isEmpty = true from rfl)]
    have h2 : l.filter (fun j => (("" : String) == "") || f j) = l.filter (fun _ => true) := by
      refine List.filter_congr ?_
      intro x _
      simp
    rw [h2, List.filter_true]
  · rw [if_neg (by simp [lowerL_nonempty s hs])]
    refine List.filter_congr ?_
    intro x _
    simp [beq_eq_false_iff_ne, hs]

theorem load_jobs_default (db : DB) :
    load_jobs db "" "" "" 80
      = { total := ((sortByDateDesc db.scraped_jobs).take 80).length,
          scraped_at := metaGet db.scraper_meta "last_run",
          jobs := (sortByDateDesc db.scraped_jobs).take 80 } := by
  simp [load_jobs]

/-- What GET /jobs actually returns: the 80 most recent rows, then the
Python-side filters, then the first `min limit 200` of those. -/
theorem jobs_do_GET_jobs (db : DB) (county jtype keyword : String) (limitParam : Nat) :
    (jobs_do_GET db county jtype keyword limitParam).jobs
      = (((sortByDateDesc db.scraped_jobs).take 80).filter
          (matchesFilters county jtype keyword)).take (min limitParam 200) := by
  simp only [jobs_do_GET, load_jobs_default]
  rw [filter_if_empty county, filter_if_empty jtype, filter_if_empty keyword,
    List.filter_filter, List.filter_filter]
  congr 1
  refine List.filter_congr ?_
  intro x _
  simp only [matchesFilters]
  cases county == "" <;> cases jtype == "" <;> cases keyword == "" <;>
    cases hasSub (lowerL county.data) (lowerL x.county.data) <;>
    cases hasSub (lowerL jtype.data) (lowerL x.jtype.data) <;>
    cases hasSub (lowerL keyword.data) (lowerL (x.title.data ++ ' ' :: x.company.data)) <;>
    rfl

/-- Claim C6 is false: 81 stored rows, every one matching the (absent)
filters, a limit of 200 within the claimed bound — yet only 80 jobs come
back, because the handler loads at most the 80 most recent rows before
filtering. -/
theorem C6_counterexample :
    dbBig.scraped_jobs.length = 81
    ∧ (∀ j ∈ dbBig.scraped_jobs, matchesFilters "" "" "" j = true)
    ∧ (jobs_do_GET dbBig "" "" "" 200).jobs.length = 80 := by
  refine ⟨by decide, by decide, ?_⟩
  decide

/-- Claim C6 (amended): GET /jobs applies the optional filters as
case-insensitive substring matches (the keyword against the
title-space-company concatenation), orders results most-recently-fetched
first and caps them at `min limit 200` — but it draws from at most the 80
most recent stored rows, so at most 80 jobs are returned and a request
returns every stored matching job only when the store holds at most 80
rows (and the matches fit under the limit). -/
theorem C6_amended (db : DB) (county jtype keyword : String) (limitParam : Nat) :
    (∀ j ∈ (jobs_do_GET db county jtype keyword limitParam).jobs,
        matchesFilters county jtype keyword j = true)
    ∧ List.Pairwise newerEq (jobs_do_GET db county jtype keyword limitParam).jobs
    ∧ (jobs_do_GET db county jtype keyword limitParam).jobs.length
        ≤ min (min limitParam 200) 80
    ∧ (db.scraped_jobs.length ≤ 80 →
        (db.scraped_jobs.filter (matchesFilters county jtype keyword)).length
            ≤ min limitParam 200 →
        ∀ j ∈ db.scraped_jobs, matchesFilters county jtype keyword j = true →
          j ∈ (jobs_do_GET db county jtype keyword limitParam).jobs) := by
  rw [jobs_do_GET_jobs]
  refine ⟨?_, ?_, ?_, ?_⟩
  · intro j hj
    exact List.of_mem_filter (List.mem_of_mem_take hj)
  · exact (((sortByDateDesc_pairwise db.scraped_jobs).sublist
      (List.take_sublist _ _)).sublist (List.filter_sublist _)).sublist
      (List.take_sublist _ _)
  · apply le_min
    · rw [List.length_take]
      exact Nat.min_le_left _ _
    · calc ((((sortByDateDesc db.scraped_jobs).take 80).filter
            (matchesFilters county jtype keyword)).take (min limitParam 200)).length
          ≤ (((sortByDateDesc db.scraped_jobs).take 80).filter
            (matchesFilters county jtype keyword)).length :=
            (List.take_sublist _ _).length_le
        _ ≤ ((sortByDateDesc db.scraped_jobs).take 80).length :=
            (List.filter_sublist _).length_le
        _ ≤ 80 := by rw [List.length_take]; exact Nat.min_le_left _ _
  · intro h80 hcount j hj hm
    have hsortlen : (sortByDateDesc db.scraped_jobs).length = db.scraped_jobs.length :=
      (sortByDateDesc_perm _).length_eq
    have hlen80 : (sortByDateDesc db.scraped_jobs).length ≤ 80 := by
      rw [hsortlen]; exact h80
    rw [List.take_of_length_le hlen80]
    have hfperm :
        List.Perm ((sortByDateDesc db.scraped_jobs).filter
            (matchesFilters county jtype keyword))
          (db.scraped_jobs.filter (matchesFilters county jtype keyword)) :=
      (sortByDateDesc_perm _).filter _
    have hlenf : ((sortByDateDesc db.scraped_jobs).filter
        (matchesFilters county jtype keyword)).length ≤ min limitParam 200 := by
      rw [hfperm.length_eq]; exact hcount
    rw [List.take_of_length_le hlenf]
    exact List.mem_filter.mpr ⟨(sortByDateDesc_perm _).mem_iff.mpr hj, hm⟩

theorem C6_witness :
    ({} : Job) ∈ (jobs_do_GET ⟨[{}], []⟩ "" "" "" 10).jobs :=
  (C6_amended ⟨[{}], []⟩ "" "" "" 10).2.2.2 (by decide) (by decide) {} (by decide) (by decide)

/-! ## Adapter invariants: claim C7 -/

theorem detect_type_mem (text : String) : detect_type text ∈ typeValues := by
  simp only [detect_type]
  repeat' split
  all_goals decide

theorem detect_sector_mem (text : String) : detect_sector text ∈ sectorValues := by
  simp only [detect_sector]
  repeat' split
  all_goals decide

theorem extract_county_mem (text : String) :
    extract_county text ∈ counties
    ∨ extract_county text = "Remote" ∨ extract_county text = "Nairobi" := by
  simp only [extract_county]
  cases hfind : counties.find? (fun c => hasSub (lowerL c.data) (lowerL text.data)) with
  | some c =>
    simp only [hfind]
    exact Or.inl (List.mem_of_find?_eq_some hfind)
  | none =>
    simp only [hfind]
    by_cases hr : (hasSub "remote".data (lowerL text.data)
        || hasSub "online".data (lowerL text.data)) = true
    · rw [if_pos hr]
      exact Or.inr (Or.inl rfl)
    · rw [if_neg hr]
      exact Or.inr (Or.inr rfl)

theorem mk_ne_empty (l : List Char) (h : l ≠ []) : (⟨l⟩ : String) ≠ "" := by
  intro he
  exact h (by simpa using congrArg String.data he)

theorem mk_length (l : List Char) : (⟨l⟩ : String).length = l.length := rfl

theorem wordsAux_all (cs : List Char) :
    ∀ acc, (∀ c ∈ acc, c.isWhitespace = false) →
      ∀ w ∈ wordsAux acc cs, w ≠ [] ∧ ∀ c ∈ w, c.isWhitespace = false := by
  induction cs with
  | nil =>
    intro acc hacc w hw
    simp only [wordsAux] at hw
    split at hw
    · simp at hw
    · rename_i hne
      simp only [List.mem_singleton] at hw
      subst hw
      refine ⟨?_, ?_⟩
      · rw [Ne, List.reverse_eq_nil_iff]
        intro h
        rw [h] at hne
        exact hne rfl
      · intro c hc
        exact hacc c (List.mem_reverse.mp hc)
  | cons c cs ih =>
    intro acc hacc w hw
    simp only [wordsAux] at hw
    split at hw
    · split at hw
      · exact ih [] (by simp) w hw
      · rename_i hne
        rcases List.mem_cons.mp hw with rfl | hw
        · refine ⟨?_, ?_⟩
          · rw [Ne, List.reverse_eq_nil_iff]
            intro h
            rw [h] at hne
            exact hne rfl
          · intro x hx
            exact hacc x (List.mem_reverse.mp hx)
        · exact ih [] (by simp) w hw
    · rename_i hcw
      refine ih (c :: acc) ?_ w hw
      intro x hx
      rcases List.mem_cons.mp hx with rfl | hx
      · exact Bool.eq_false_iff.mpr hcw
      · exact hacc x hx

theorem joinWords_head (ws : List (List Char))
    (hws : ∀ w ∈ ws, w ≠ [] ∧ ∀ c ∈ w, c.isWhitespace = false)
    (c : Char) (rest : List Char) (h : joinWords ws = c :: rest) :
    c.isWhitespace = false := by
  induction ws with
  | nil => simp [joinWords] at h
  | cons w ws ih =>
    cases ws with
    | nil =>
      simp only [joinWords] at h
      have hw := hws w (List.mem_cons_self _ _)
      refine hw.2 c ?_
      rw [h]
      exact List.mem_cons_self _ _
    | cons w2 ws2 =>
      simp only [joinWords] at h
      have hw := hws w (List.mem_cons_self _ _)
      cases w with
      | nil => exact absurd rfl hw.1
      | cons a as =>
        simp only [List.cons_append, List.cons.injEq] at h
        exact h.1 ▸ hw.2 a (List.mem_cons_self _ _)

theorem cleanL_head (raw : List Char) (c : Char) (rest : List Char)
    (h : cleanL raw = c :: rest) : c.isWhitespace = false :=
  joinWords_head (wordsL raw) (fun w hw => wordsAux_all raw [] (by simp) w hw) c rest h

theorem mem_dropWhile_of_mem (l : List Char) (x : Char) (hx : x ∈ l)
    (hxw : x.isWhitespace = false) :
    x ∈ l.dropWhile Char.isWhitespace := by
  induction l with
  | nil => simp at hx
  | cons a as ih =>
    rw [List.dropWhile_cons]
    split
    · rename_i ha
      rcases List.mem_cons.mp hx with rfl | hx
      · simp [hxw] at ha
      · exact ih hx
    · exact hx

theorem trimL_ne_nil (l : List Char) (x : Char) (hx : x ∈ l)
    (hxw : x.isWhitespace = false) : trimL l ≠ [] := by
  have h1 := mem_dropWhile_of_mem l x hx hxw
  have h2 : x ∈ (l.dropWhile Char.isWhitespace).reverse := List.mem_reverse.mpr h1
  have h3 := mem_dropWhile_of_mem _ x h2 hxw
  unfold trimL
  rw [Ne, List.reverse_eq_nil_iff]
  exact List.ne_nil_of_mem h3

theorem startsWith_space_false (s2 cs : List Char) (c0 : Char)
    (hc : c0.isWhitespace = false) :
    startsWithL (' ' :: s2) (c0 :: cs) = false := by
  simp only [startsWithL]
  have hne : (' ' == c0) = false := by
    rw [beq_eq_false_iff_ne]
    intro he
    rw [← he] at hc
    exact absurd hc (by decide)
  simp [hne]

theorem splitFirst_cons_head (sep : List Char) (c0 : Char) (cs a b : List Char)
    (hs : startsWithL sep (c0 :: cs) = false)
    (h : splitFirst sep (c0 :: cs) = some (a, b)) : ∃ a2, a = c0 :: a2 := by
  simp only [splitFirst, hs] at h
  cases hsp : splitFirst sep cs with
  | some p =>
    rw [hsp] at h
    simp only [Bool.false_eq_true, if_false, Option.some.injEq, Prod.mk.injEq] at h
    exact ⟨p.1, h.1.symm⟩
  | none =>
    rw [hsp] at h
    simp at h

theorem rssSplitTitle_ne_nil (name : String) (raw : List Char)
    (hne : cleanL raw ≠ []) :
    (rssSplitTitle name (cleanL raw)).1 ≠ [] := by
  obtain ⟨c0, rest, hc⟩ : ∃ c0 rest, cleanL raw = c0 :: rest := by
    cases h : cleanL raw with
    | nil => exact absurd h hne
    | cons a as => exact ⟨a, as, rfl⟩
  have hc0 : c0.isWhitespace = false := cleanL_head raw c0 rest hc
  rw [hc]
  rw [rssSplitTitle]
  have hsep1 : " at ".data = ' ' :: "at ".data := rfl
  have hsep2 : " - ".data = ' ' :: "- ".data := rfl
  have hsep3 : " | ".data = ' ' :: "| ".data := rfl
  have hs1 : startsWithL " at ".data (c0 :: rest) = false := by
    rw [hsep1]; exact startsWith_space_false _ _ _ hc0
  have hs2 : startsWithL " - ".data (c0 :: rest) = false := by
    rw [hsep2]; exact startsWith_space_false _ _ _ hc0
  have hs3 : startsWithL " | ".data (c0 :: rest) = false := by
    rw [hsep3]; exact startsWith_space_false _ _ _ hc0
  cases h1 : splitFirst " at ".data (c0 :: rest) with
  | some p =>
    obtain ⟨a2, ha⟩ := splitFirst_cons_head _ _ _ _ _ hs1 (by rw [h1])
    simp only [ha]
    exact trimL_ne_nil _ c0 (List.mem_cons_self _ _) hc0
  | none =>
    cases h2 : splitFirst " - ".data (c0 :: rest) with
    | some p =>
      obtain ⟨a2, ha⟩ := splitFirst_cons_head _ _ _ _ _ hs2 (by rw [h2])
      simp only [ha]
      exact trimL_ne_nil _ c0 (List.mem_cons_self _ _) hc0
    | none =>
      cases h3 : splitFirst " | ".data (c0 :: rest) with
      | some p =>
        obtain ⟨a2, ha⟩ := splitFirst_cons_head _ _ _ _ _ hs3 (by rw [h3])
        simp only [ha]
        exact trimL_ne_nil _ c0 (List.mem_cons_self _ _) hc0
      | none =>
        simp only []
        exact fun hx => absurd hx (by simp)

theorem rwItemJob_good (now : String) (n : Nat) (it : RWItem) (j : Job)
    (h : rwItemJob now n it = some j) : GoodJob j := by
  simp only [rwItemJob] at h
  split at h
  · exact absurd h (by simp)
  · rename_i hne
    injection h with h
    subst h
    refine ⟨?_, detect_type_mem _, extract_county_mem _, detect_sector_mem _, ?_⟩
    · apply mk_ne_empty
      intro hl
      rw [hl] at hne
      exact hne rfl
    · rw [mk_length, List.length_take]
      exact Nat.min_le_left _ _

theorem remItemJob_good (now : String) (n : Nat) (it : RemItem) (j : Job)
    (h : remItemJob now n it = some j) : GoodJob j := by
  simp only [remItemJob] at h
  split at h
  · exact absurd h (by simp)
  · rename_i hne
    injection h with h
    subst h
    refine ⟨?_, ?_, Or.inr (Or.inl rfl), detect_sector_mem _, ?_⟩
    · apply mk_ne_empty
      intro hl
      rw [hl] at hne
      exact hne rfl
    · show ("Remote" : String) ∈ typeValues
      decide
    · rw [mk_length, List.length_take]
      exact Nat.min_le_left _ _

theorem rssItemJob_good (name now : String) (n : Nat) (it : RssItem) (j : Job)
    (h : rssItemJob name now n it = some j) : GoodJob j := by
  simp only [rssItemJob] at h
  split at h
  · exact absurd h (by simp)
  · rename_i hguard
    injection h with h
    subst h
    refine ⟨?_, detect_type_mem _, extract_county_mem _, detect_sector_mem _, ?_⟩
    · apply mk_ne_empty
      have hnil : cleanL (it.titleTxt.getD "").data ≠ [] := by
        intro hn
        apply hguard
        show ((rssGet it.titleTxt).isEmpty || _) = true
        rw [show rssGet it.titleTxt = cleanL (it.titleTxt.getD "").data from rfl, hn]
        rfl
      exact rssSplitTitle_ne_nil name (it.titleTxt.getD "").data hnil
    · rw [mk_length, List.length_take]
      exact Nat.min_le_left _ _

theorem adapterGo_inv {α : Type} (P : Job → Prop) (emit : Nat → α → Option Job)
    (hemit : ∀ n it j, emit n it = some j → P j) (its : List α) (acc : List Job)
    (hacc : ∀ j ∈ acc, P j) : ∀ j ∈ adapterGo emit its acc, P j := by
  induction its generalizing acc with
  | nil => exact hacc
  | cons it its ih =>
    intro j hj
    simp only [adapterGo] at hj
    cases he : emit acc.length it with
    | some j2 =>
      rw [he] at hj
      refine ih (acc ++ [j2]) ?_ j hj
      intro x hx
      rcases List.mem_append.mp hx with hx | hx
      · exact hacc x hx
      · simp only [List.mem_singleton] at hx
        subst hx
        exact hemit _ _ _ he
    | none =>
      rw [he] at hj
      exact ih acc hacc j hj

/-- Claim C7: every posting emitted by any of the three adapters satisfies
the record invariant: non-empty title, employment type among the seven
enumeration values, county in the fixed region list or the Remote/Nairobi
sentinels, sector among the eleven sector values, and a description of at
most 2000 characters. -/
theorem C7_adapters_invariant (now name : String) (rws : List RWItem)
    (rems : List RemItem) (rsss : List RssItem) (j : Job)
    (h : j ∈ scrape_reliefweb now rws ∨ j ∈ scrape_remotive now rems
        ∨ j ∈ parse_rss name now rsss) :
    GoodJob j := by
  rcases h with h | h | h
  · rw [scrape_reliefweb] at h
    exact adapterGo_inv GoodJob _ (fun n it j2 he => rwItemJob_good now n it j2 he)
      rws [] (by simp) j h
  · rw [scrape_remotive] at h
    exact adapterGo_inv GoodJob _ (fun n it j2 he => remItemJob_good now n it j2 he)
      rems [] (by simp) j h
  · rw [parse_rss] at h
    exact adapterGo_inv GoodJob _ (fun n it j2 he => rssItemJob_good name now n it j2 he)
      (rsss.take 40) [] (by simp) j h

theorem C7_witness : GoodJob rwSampleJob :=
  C7_adapters_invariant "t" "x" [rwSample] [] [] rwSampleJob (Or.inl (by decide))

end JobsKenya
